import Mathlib

/-!
Verification of the `hx/freeswitch` FreeSWITCH event-socket client library.

The Lean definitions below are shallow embeddings of the Go source:

* `Header`, `Headers` and their operations embed `headers.go`
  (`headers.add/set/get/getAll/del`, `header.matchName`,
  `header.escapedString`, `headers.load`);
* `pathEscapeList` / `pathUnescapeList` embed the behaviour of Go's
  `net/url.PathEscape` / `net/url.PathUnescape` (mode `encodePathSegment`),
  which `headers.go` calls;
* `RawPacket.packetType` and `RawPacket.cast` embed the packet classifier
  of `packets.go`;
* `Event` and its `read` / `get` / `body` / `timestamp` operations embed
  the lazy event parser of `event.go` (`Event.read`, `Event.Get`,
  `Event.Body`, `Event.Timestamp`), with `textproto.ReadMIMEHeader`
  modelled on line lists and `io.ReadFull` into a zeroed buffer modelled
  by `readFullZero`;
* `loopStep` / `loopRun` embed the normal-operation loop of
  `Client.Connect` (the `cmdFiFo` command pipeline);
* `setRunning` / `closeErr` / `shutdown` embed `Client.setRunning`,
  `Client.close` and `Client.Shutdown`;
* `executeFS`, `queryModel` and `executeClientPSB` embed `Client.execute`,
  `Client.Query` and `Client.Execute` (the latter with its
  `PreventSocketBlocking` branch), with the channel rendezvous abstracted
  to explicit values.

Machine integers are modelled as `Int` with Go's truncated division and
remainder (`Int.tdiv` / `Int.tmod`); fallible operations return `Option`
or `Except`.
-/

set_option autoImplicit false

namespace Freeswitch

/-! ## Header container (`headers.go`) -/

/-- A single event header: `type header struct { name, value string }`. -/
structure Header where
  name : String
  value : String
deriving Repr, DecidableEq

/-- `type headers []*header`: an ordered multimap of headers. -/
abbrev Headers := List Header

/-- `strings.ToLower`: lowercase the string rune by rune. -/
def strToLower (s : String) : String :=
  String.mk (s.data.map Char.toLower)

/-- `header.matchName`: case-insensitive name comparison,
`strings.ToLower(name) == strings.ToLower(h.name)`. -/
def matchName (name hname : String) : Bool :=
  strToLower name == strToLower hname

/-- `headers.add`: append a header to the end. -/
def Headers.add (h : Headers) (name value : String) : Headers :=
  h ++ [⟨name, value⟩]

/-- `headers.get`: value of the first header whose name matches, else `""`. -/
def Headers.get : Headers → String → String
  | [], _ => ""
  | e :: rest, name => if matchName name e.name then e.value else Headers.get rest name

/-- `headers.getAll`: values of all matching headers, in container order. -/
def Headers.getAll : Headers → String → List String
  | [], _ => []
  | e :: rest, name =>
    if matchName name e.name then e.value :: Headers.getAll rest name
    else Headers.getAll rest name

/-- `headers.del`: rebuild the container without the matching entries,
but only when at least one entry matched. -/
def Headers.del (h : Headers) (name : String) : Headers :=
  if 0 < (h.getAll name).length then h.filter (fun e => ! matchName name e.name) else h

/-- `headers.set`: delete all matching entries, then append. -/
def Headers.set (h : Headers) (name value : String) : Headers :=
  (h.del name).add name value

/-- A single `add`/`set`/`del` operation on the header container. -/
inductive HOp where
  | add (name value : String)
  | set (name value : String)
  | del (name : String)
deriving Repr, DecidableEq

/-- Apply one header operation. -/
def applyOp (h : Headers) : HOp → Headers
  | .add name value => h.add name value
  | .set name value => h.set name value
  | .del name => h.del name

/-- Apply a sequence of header operations to the empty container. -/
def applyOps (ops : List HOp) : Headers :=
  ops.foldl applyOp []

theorem get_eq_head_getAll (h : Headers) (n v : String) (vs : List String)
    (hne : h.getAll n = v :: vs) : h.get n = v := by
  induction h with
  | nil => simp [Headers.getAll] at hne
  | cons e rest ih =>
    by_cases hm : matchName n e.name
    · simp [Headers.getAll, hm] at hne
      simp [Headers.get, hm, hne.1]
    · simp [Headers.getAll, hm] at hne
      simp [Headers.get, hm]
      exact ih hne

theorem getAll_eq_filter_map (h : Headers) (n : String) :
    h.getAll n = (h.filter (fun e => matchName n e.name)).map Header.value := by
  induction h with
  | nil => rfl
  | cons e rest ih =>
    by_cases hm : matchName n e.name
    · simp [Headers.getAll, hm, List.filter_cons, ih]
    · simp [Headers.getAll, hm, List.filter_cons, ih]

theorem del_eq_filter (h : Headers) (n : String) :
    h.del n = h.filter (fun e => ! matchName n e.name) := by
  unfold Headers.del
  split
  · rfl
  · rename_i hlen
    rw [getAll_eq_filter_map] at hlen
    simp at hlen
    symm
    rw [List.filter_eq_self]
    intro a ha
    simp [hlen a ha]

theorem getAll_del_other (h : Headers) (m n : String)
    (hmm : strToLower m ≠ strToLower n) :
    (h.del m).getAll n = h.getAll n := by
  rw [del_eq_filter, getAll_eq_filter_map, getAll_eq_filter_map, List.filter_filter]
  congr 1
  apply List.filter_congr
  intro e _
  by_cases hm : matchName m e.name
  · have hnm : matchName n e.name = false := by
      unfold matchName at hm ⊢
      simp at hm ⊢
      intro hcontra
      exact hmm (hm ▸ hcontra.symm ▸ rfl)
    simp [hnm, hm]
  · simp [hm]

/-! ## Percent escaping (`net/url.PathEscape` / `PathUnescape`, called by `headers.go`) -/

/-- Hex digit test, as Go's `ishex`. -/
def ishex (c : Char) : Bool :=
  ('0' ≤ c && c ≤ '9') || ('a' ≤ c && c ≤ 'f') || ('A' ≤ c && c ≤ 'F')

/-- Hex digit value, as Go's `unhex`. -/
def unhex (c : Char) : Nat :=
  if '0' ≤ c && c ≤ '9' then c.toNat - '0'.toNat
  else if 'a' ≤ c && c ≤ 'f' then c.toNat - 'a'.toNat + 10
  else if 'A' ≤ c && c ≤ 'F' then c.toNat - 'A'.toNat + 10
  else 0

/-- Go's `shouldEscape(c, encodePathSegment)`: which bytes `PathEscape`
percent-escapes. Alphanumerics, `-_.~` and the reserved characters
`$&+:=@` pass through; `/;,?` and everything else are escaped. -/
def shouldEscape (c : Char) : Bool :=
  if ('a' ≤ c && c ≤ 'z') || ('A' ≤ c && c ≤ 'Z') || ('0' ≤ c && c ≤ '9') then false
  else if c == '-' || c == '_' || c == '.' || c == '~' then false
  else if c == '$' || c == '&' || c == '+' || c == ',' || c == '/' || c == ':'
       || c == ';' || c == '=' || c == '?' || c == '@' then
    c == '/' || c == ';' || c == ',' || c == '?'
  else true

/-- Upper-case hex digit, as Go's `upperhex` table. -/
def upperHexDigit (n : Nat) : Char :=
  if n < 10 then Char.ofNat ('0'.toNat + n) else Char.ofNat ('A'.toNat + n - 10)

/-- Escape one byte: either the byte itself or `%XY` with upper-case hex. -/
def escapeChar (c : Char) : List Char :=
  if shouldEscape c then ['%', upperHexDigit (c.toNat / 16), upperHexDigit (c.toNat % 16)]
  else [c]

/-- `url.PathEscape` over a list of bytes. -/
def pathEscapeList (s : List Char) : List Char :=
  s.flatMap escapeChar

/-- `url.PathUnescape` over a list of bytes: `%XY` hex sequences decode,
a malformed `%` sequence is an `EscapeError`, `+` and every other byte
pass through unchanged in path mode. -/
def pathUnescapeList : List Char → Option (List Char)
  | [] => some []
  | '%' :: a :: b :: rest =>
    if ishex a && ishex b then
      (pathUnescapeList rest).map (fun r => Char.ofNat (unhex a * 16 + unhex b) :: r)
    else none
  | '%' :: _ => none
  | c :: rest => (pathUnescapeList rest).map (fun r => c :: r)

/-- The `value, _ = url.PathUnescape(value)` pattern of `headers.load`:
on error, Go's `PathUnescape` returns the empty string, which is what the
discarded-error assignment stores. -/
def pathUnescapeLossy (s : List Char) : List Char :=
  (pathUnescapeList s).getD []

/-- `headers.load` with `unescape = true`, restricted to a single value:
the value stored in the container for wire value `s`. -/
def loadValueUnescaped (s : List Char) : List Char :=
  pathUnescapeLossy s

/-- `header.escapedValue`: the value part serialized by
`header.escapedString`. -/
def escapedValue (stored : List Char) : List Char :=
  pathEscapeList stored

/-- The load-then-serialize round trip of claim C4: wire value `s` is
loaded with unescaping enabled and then re-serialized with escaping. -/
def loadEscapeRoundTrip (s : List Char) : List Char :=
  escapedValue (loadValueUnescaped s)

/-- Printable ASCII plus space: the value-string class named by the spec
(`:` is printable ASCII and thus already included). -/
def printableAsciiSpace (c : Char) : Bool :=
  32 ≤ c.toNat && c.toNat ≤ 126

/-! ## Packets and the classifier (`packets.go`, the `packetType`/`cast` file) -/

def ptAuthRequest : String := "auth/request"

def ptCommandReply : String := "command/reply"

def ptDisconnectNotice : String := "text/disconnect-notice"

def ptResult : String := "api/response"

def ptEventPlain : String := "text/event-plain"

/-- `type rawPacket struct { headers headers; body string }`. -/
structure RawPacket where
  headers : Headers
  body : String
deriving Repr, DecidableEq

/-- `rawPacket.packetType`: the `Content-Type` header value. -/
def RawPacket.packetType (rp : RawPacket) : String :=
  rp.headers.get "Content-Type"

/-- The result of `rawPacket.cast`: one Go wrapper struct per branch
(`reply`, `inboundEvent`, `result`, `disconnectNotice`), or the raw
packet itself in the `default` branch. -/
inductive Packet where
  | reply (rp : RawPacket)
  | inboundEvent (rp : RawPacket)
  | result (rp : RawPacket)
  | disconnectNotice (rp : RawPacket)
  | raw (rp : RawPacket)
deriving Repr, DecidableEq

/-- `rawPacket.cast`: the switch on `rp.packetType()`. Note the Go switch
has no `ptAuthRequest` case: auth requests fall through to `default`. -/
def RawPacket.cast (rp : RawPacket) : Packet :=
  if rp.packetType == ptCommandReply then .reply rp
  else if rp.packetType == ptEventPlain then .inboundEvent rp
  else if rp.packetType == ptResult then .result rp
  else if rp.packetType == ptDisconnectNotice then .disconnectNotice rp
  else .raw rp

/-- The variant names used by the spec's classifier table. -/
inductive SpecVariant where
  | authRequest
  | reply
  | result
  | event
  | disconnect
  | raw
deriving Repr, DecidableEq

/-- The variant tag of a cast packet. -/
def Packet.variant : Packet → SpecVariant
  | .reply _ => .reply
  | .inboundEvent _ => .event
  | .result _ => .result
  | .disconnectNotice _ => .disconnect
  | .raw _ => .raw

/-- The classifier exactly as the spec's table states it (claim C2 as
written): `auth/request` is mapped to a distinguished auth-request
variant. -/
def specClassify (ct : String) : SpecVariant :=
  if ct == "auth/request" then .authRequest
  else if ct == "command/reply" then .reply
  else if ct == "api/response" then .result
  else if ct == "text/event-plain" then .event
  else if ct == "text/disconnect-notice" then .disconnect
  else .raw

/-- The classifier as amended: `auth/request` is NOT given its own variant
by `cast`; it falls through to the raw passthrough, and is recognised
separately by the `packetType` accessor. -/
def specClassifyAmended (ct : String) : SpecVariant :=
  if ct == "command/reply" then .reply
  else if ct == "api/response" then .result
  else if ct == "text/event-plain" then .event
  else if ct == "text/disconnect-notice" then .disconnect
  else .raw

/-- `strings.HasPrefix(s, pre)`, over the underlying byte lists. -/
def hasPrefixGo (s pre : String) : Bool :=
  List.isPrefixOf pre.data s.data

/-- `reply.ok`: `strings.HasPrefix(r.String(), "+OK")` where `String()`
is the `Reply-Text` header. -/
def replyOk (rp : RawPacket) : Bool :=
  hasPrefixGo (rp.headers.get "Reply-Text") "+OK"

/-- `reply.jobID`: the `Job-UUID` header of the reply. -/
def replyJobID (rp : RawPacket) : String :=
  rp.headers.get "Job-UUID"

/-! ## Integer parsing (`strconv.Atoi`, 64-bit `int`) -/

/-- Decimal digit value. -/
def digitVal (c : Char) : Option Nat :=
  if '0' ≤ c && c ≤ '9' then some (c.toNat - '0'.toNat) else none

/-- Accumulate decimal digits; `none` on any non-digit. -/
def digitsValAux : List Char → Nat → Option Nat
  | [], acc => some acc
  | c :: rest, acc =>
    match digitVal c with
    | some d => digitsValAux rest (acc * 10 + d)
    | none => none

/-- Value of a non-empty all-digit string. -/
def digitsVal : List Char → Option Nat
  | [] => none
  | l => digitsValAux l 0

/-- Largest value of Go's 64-bit `int`. -/
def maxInt64 : Nat := 2 ^ 63 - 1

/-- `strconv.Atoi` on a 64-bit platform: optional sign, at least one
digit, no other characters, result within `int64` range. -/
def atoi (s : String) : Option Int :=
  match s.data with
  | '+' :: rest => (digitsVal rest).bind fun n =>
      if n ≤ maxInt64 then some (Int.ofNat n) else none
  | '-' :: rest => (digitsVal rest).bind fun n =>
      if n ≤ 2 ^ 63 then some (-(n : Int)) else none
  | l => (digitsVal l).bind fun n =>
      if n ≤ maxInt64 then some (Int.ofNat n) else none

/-! ## Event model (`event.go`) -/

/-- Split one `\n`-terminated line off a character stream
(`textproto` line reading; CRLF trimming elided, FreeSWITCH event
bodies use bare `\n`). -/
def takeLine : List Char → List Char × List Char
  | [] => ([], [])
  | '\n' :: rest => ([], rest)
  | c :: rest =>
    let p := takeLine rest
    (c :: p.1, p.2)

/-- Consume header lines until a blank line or end of input, returning
the lines and the unread remainder (the stream position after
`textproto.ReadMIMEHeader`). Fuel is the input length; each step
consumes at least one character. -/
def readHeaderLinesAux : Nat → List Char → List (List Char) × List Char
  | 0, s => ([], s)
  | _ + 1, [] => ([], [])
  | fuel + 1, s =>
    let p := takeLine s
    if p.1.isEmpty then ([], p.2)
    else
      let q := readHeaderLinesAux fuel p.2
      (p.1 :: q.1, q.2)

/-- Header-block consumption of `textproto.ReadMIMEHeader`. -/
def readHeaderLines (s : List Char) : List (List Char) × List Char :=
  readHeaderLinesAux s.length s

/-- Skip the spaces and tabs that `textproto` strips before a value. -/
def dropLeadingSpace : List Char → List Char
  | [] => []
  | c :: rest => if c == ' ' || c == '\t' then dropLeadingSpace rest else c :: rest

/-- One header line of `textproto.ReadMIMEHeader`: split at the first
colon (key before, value after with leading blanks skipped); a line
without a colon is a protocol error. -/
def parseHeaderLine (l : List Char) : Except String (String × String) :=
  match l.findIdx? (fun c => c == ':') with
  | none => .error ("malformed MIME header line: " ++ String.mk l)
  | some i => .ok (String.mk (l.take i), String.mk (dropLeadingSpace (l.drop (i + 1))))

/-- All header lines; the first malformed line aborts with its error, as
`textproto.ReadMIMEHeader` does. Reaching the end of input without a
blank line is the `io.EOF` case, which `Event.read` accepts as success,
so it is folded into the `ok` result here. -/
def parseLines : List (List Char) → Except String (List (String × String))
  | [] => .ok []
  | l :: rest =>
    match parseHeaderLine l with
    | .error msg => .error msg
    | .ok kv => (parseLines rest).map (fun t => kv :: t)

/-- `loadHeaders(mimeHeaders, true)`: store each parsed pair with its
value percent-unescaped (errors discarded, as in `headers.load`). -/
def loadParsedHeaders (pairs : List (String × String)) : Headers :=
  pairs.map (fun p => ⟨p.1, String.mk (pathUnescapeLossy p.2.data)⟩)

/-- `body := make([]byte, n); io.ReadFull(reader, body)` with the error
discarded: the available bytes fill the front of the buffer and the
rest stays zero (NUL). -/
def readFullZero (avail : List Char) (n : Nat) : List Char :=
  avail.take n ++ List.replicate (n - (avail.take n).length) (Char.ofNat 0)

/-- `type Event struct`: the raw packet body plus the lazily parsed
header container (`nil` until `read` runs) and the residual body. -/
structure Event where
  rawBody : List Char
  headers : Option Headers := none
  body : List Char := []
deriving Repr, DecidableEq

/-- `Event.read`: the lazy parse. Parse the raw body's MIME header block
(with unescaping); on success take `Content-Length` residual bytes as
the body; on failure install the single synthetic `Event-Name` header
holding the error text. A non-`nil` header container short-circuits. -/
def Event.read (e : Event) : Event :=
  match e.headers with
  | some _ => e
  | none =>
    let p := readHeaderLines e.rawBody
    match parseLines p.1 with
    | .ok pairs =>
      let hs := loadParsedHeaders pairs
      match atoi (hs.get "Content-Length") with
      | some n =>
        if 0 < n then { e with headers := some hs, body := readFullZero p.2 n.toNat }
        else { e with headers := some hs }
      | none => { e with headers := some hs }
    | .error msg => { e with headers := some [⟨"Event-Name", msg⟩] }

/-- `Event.Get`: run the lazy parse, then look up the name (empty string
when the container is still `nil` or the name is absent). -/
def Event.Get (e : Event) (name : String) : String :=
  match e.read.headers with
  | none => ""
  | some h => h.get name

/-- `Event.Body`: run the lazy parse, then return the residual body. -/
def Event.Body (e : Event) : List Char :=
  e.read.body

/-- `time.Unix(sec, nsec)` as a moment: total nanoseconds since the
Unix epoch. -/
def timeUnix (sec nsec : Int) : Int :=
  sec * 1000000000 + nsec

/-- `Event.Timestamp`: parse `Event-Date-Timestamp` with `strconv.Atoi`;
on success the moment `time.Unix(t/1e6, t%1e6*1e3)` (Go's truncated
division), on failure the absent value (`nil` pointer). -/
def Event.Timestamp (e : Event) : Option Int :=
  match atoi (e.Get "Event-Date-Timestamp") with
  | some t => some (timeUnix (t.tdiv 1000000) ((t.tmod 1000000) * 1000))
  | none => none

/-! ## Session controller (`packets.go`: `Client.Connect` normal-operation
loop, `Shutdown`/`close`/`setRunning`, `execute`/`Query`/`Execute`) -/

/-- The named error values of `errors.go`. -/
inductive FsError where
  | eAlreadyConnected
  | eAuthenticationFailed
  | eBlankHostname
  | eCommandFailed
  | eDisconnected
  | eNotConnected
  | eShutdown
  | eTimeout
  | eUnexpectedResponse
deriving Repr, DecidableEq

/-- One input to the normal-operation `select` loop of `Client.Connect`:
a command accepted from the outbox (identified by its position-unique
id, standing for its response channel), an inbound raw packet from the
reader, or an error arriving on the error channel. Writes are modelled
as succeeding, matching the claim's "successfully written" scope. -/
inductive LoopInput where
  | accept (id : Nat)
  | packet (rp : RawPacket)
  | errSignal
deriving Repr, DecidableEq

/-- State of the normal-operation loop: the `cmdFiFo` queue of commands
awaiting responses, the deliveries made so far to response channels
(command id paired with the packet sent to it), and whether `err` has
become non-nil (which breaks the loop). -/
structure LoopState where
  fifo : List Nat
  deliveries : List (Nat × RawPacket)
  stopped : Bool
deriving Repr, DecidableEq

/-- One iteration of the loop body: an error breaks the loop; an inbound
packet is `cast` — events dispatch to handlers (no pipeline effect),
a disconnect notice sets `EDisconnected`, and any other packet is
delivered to the head of `cmdFiFo` when the queue is non-empty and
discarded otherwise; an accepted command is appended to `cmdFiFo` and
written to the socket. -/
def loopStep (s : LoopState) (i : LoopInput) : LoopState :=
  if s.stopped then s
  else
    match i with
    | .errSignal => { s with stopped := true }
    | .accept id => { s with fifo := s.fifo ++ [id] }
    | .packet rp =>
      match rp.cast with
      | .inboundEvent _ => s
      | .disconnectNotice _ => { s with stopped := true }
      | _ =>
        match s.fifo with
        | [] => s
        | id :: rest => { s with fifo := rest, deliveries := s.deliveries ++ [(id, rp)] }

/-- Run the loop over a whole input trace. -/
def loopRun (s : LoopState) (is : List LoopInput) : LoopState :=
  is.foldl loopStep s

/-- The ids of the commands accepted into the pipeline, in acceptance
order. -/
def acceptedIds (is : List LoopInput) : List Nat :=
  is.filterMap fun i =>
    match i with
    | .accept id => some id
    | _ => none

/-- A packet is eligible for command matching when its cast is neither an
event nor a disconnect notice. -/
def isMatchable (rp : RawPacket) : Bool :=
  match rp.cast with
  | .inboundEvent _ => false
  | .disconnectNotice _ => false
  | _ => true

/-- The response-eligible packets of a trace, in arrival order. -/
def matchablePackets (is : List LoopInput) : List RawPacket :=
  is.filterMap fun i =>
    match i with
    | .packet rp => if isMatchable rp then some rp else none
    | _ => none

/-- A trace with no error signal and no disconnect notice (the loop runs
in normal operation throughout). -/
def noStop (is : List LoopInput) : Bool :=
  is.all fun i =>
    match i with
    | .errSignal => false
    | .packet rp =>
      match rp.cast with
      | .disconnectNotice _ => false
      | _ => true
    | .accept _ => true

/-- Every response-eligible packet arrives while at least one command is
awaiting its response (`q` counts the commands already queued): the
well-formedness of an ESL connection, where each response answers an
already-written command. -/
def balanced : Nat → List LoopInput → Bool
  | _, [] => true
  | q, .accept _ :: rest => balanced (q + 1) rest
  | q, .packet rp :: rest =>
    if isMatchable rp then decide (0 < q) && balanced (q - 1) rest
    else balanced q rest
  | q, .errSignal :: rest => balanced q rest

/-- Session running flag and the errors pushed onto the error channel. -/
structure SessionState where
  running : Bool
  errsPushed : List FsError
deriving Repr, DecidableEq

/-- `Client.setRunning(running)`: a compare-and-swap of the flag from
`!running` to `running`, reporting whether it changed the flag. -/
def setRunning (s : SessionState) (running : Bool) : Bool × SessionState :=
  if s.running == !running then (true, { s with running := running })
  else (false, s)

/-- `Client.close(err)`: push `err` onto the error channel only if this
call swapped the running flag from true to false. -/
def closeErr (s : SessionState) (err : FsError) : SessionState :=
  let p := setRunning s false
  if p.1 then { p.2 with errsPushed := p.2.errsPushed ++ [err] } else p.2

/-- `Client.Shutdown()`: `c.close(EShutdown)`. -/
def shutdown (s : SessionState) : SessionState :=
  closeErr s .eShutdown

/-- Iterated `Shutdown` calls. -/
def shutdownN : Nat → SessionState → SessionState
  | 0, s => s
  | n + 1, s => shutdownN n (shutdown s)

/-- The possible outcomes of `Client.execute`'s two rendezvous: the
outbox select times out, the outbox yields a nil channel, or the
command is submitted and its response channel yields a packet
(`none` models the `nil` cancellation on disconnect). -/
inductive ExecOutcome where
  | timeout
  | nilChan
  | response (p : Option Packet)
deriving Repr, DecidableEq

/-- `Client.execute(args)`: `ETimeout` when the outbox never answers,
`ENotConnected` on a nil channel or a nil response, otherwise the
response packet. -/
def executeFS : ExecOutcome → Option Packet × Option FsError
  | .timeout => (none, some .eTimeout)
  | .nilChan => (none, some .eNotConnected)
  | .response none => (none, some .eNotConnected)
  | .response (some p) => (some p, none)

/-- The job table keys (`c.jobs`), with Go map semantics on its keys:
inserting an existing key leaves the key set unchanged. -/
def mapInsert (jobs : List String) (k : String) : List String :=
  if jobs.contains k then jobs else jobs ++ [k]

/-- `delete(c.jobs, k)`. -/
def mapDelete (jobs : List String) (k : String) : List String :=
  jobs.filter (fun j => j ≠ k)

/-- `Client.Query`: register the generated job id in the job table, run
`bgapi` through `execute`, and only when the response packet is nil
(`p == nil`) drop the registration and return a nil channel. The
returned channel is identified by the job id; `none` is the nil
channel. The result is (job table after, returned channel, error). -/
def queryModel (jobs : List String) (jobID : String) (o : ExecOutcome) :
    List String × Option String × Option FsError :=
  let jobs1 := mapInsert jobs jobID
  let r := executeFS o
  match r.1 with
  | none => (mapDelete jobs1 jobID, none, r.2)
  | some _ => (jobs1, some jobID, r.2)

/-- The spec's condition for an "immediate Reply indicating failure": a
null reply, a reply that is not OK, or a reply with no echoed
Job-UUID. -/
def replyIndicatesFailure : Option Packet → Bool
  | none => true
  | some (.reply rp) => !replyOk rp || replyJobID rp == ""
  | some _ => false

/-- `Client.Execute` with `PreventSocketBlocking == true`: the branch
`ch, err := c.Query(...)` declares a NEW `err` that shadows the named
return value, so the named `err` is never assigned in this branch and
the call returns `nil`. When the inner error is nil the result is
received from the channel (`recv` is the value the channel eventually
yields); otherwise `result` stays the empty string. -/
def executeClientPSB (jobs : List String) (jobID : String) (o : ExecOutcome)
    (recv : String) : String × Option FsError :=
  let q := queryModel jobs jobID o
  let innerErr := q.2.2
  let result := if innerErr = none then recv else ""
  (result, none)

/-! ## Claim C7: header container invariants -/

/-- C7: for every sequence of add/set/delete operations on the header
container and every name `n`, `get n` equals the head of `getAll n`
whenever `getAll n` is non-empty; `del` is an order-preserving filter,
`getAll` lists the values of the matching entries in insertion order,
and deleting one name leaves the `getAll` sequence of any other name
unchanged. -/
theorem headers_get_getAll_fifo (ops : List HOp) (n m v : String) (vs : List String)
    (hmm : strToLower m ≠ strToLower n) :
    ((applyOps ops).getAll n = v :: vs → (applyOps ops).get n = v)
    ∧ (applyOps ops).del n = (applyOps ops).filter (fun e => ! matchName n e.name)
    ∧ (applyOps ops).getAll n
        = ((applyOps ops).filter (fun e => matchName n e.name)).map Header.value
    ∧ ((applyOps ops).del m).getAll n = (applyOps ops).getAll n := by
  refine ⟨fun h => get_eq_head_getAll _ _ _ _ h, del_eq_filter _ _,
    getAll_eq_filter_map _ _, getAll_del_other _ _ _ hmm⟩

/-- Witness for C7 at a concrete operation sequence. -/
theorem headers_get_getAll_fifo_witness :
    (strToLower "b" ≠ strToLower "a")
    ∧ (applyOps [.add "a" "1", .add "A" "2", .add "b" "3", .del "b"]).getAll "a" = ["1", "2"]
    ∧ (applyOps [.add "a" "1", .add "A" "2", .add "b" "3", .del "b"]).get "a" = "1" := by
  have h := headers_get_getAll_fifo [.add "a" "1", .add "A" "2", .add "b" "3", .del "b"]
    "a" "b" "1" ["2"] (by decide)
  exact ⟨by decide, by decide, h.1 (by decide)⟩

/-! ## Claim C4: percent round trip -/

/-- Counterexample to C4 as stated: a single space is printable ASCII
plus space, but load-with-unescape followed by serialize-with-escape
turns `" "` into `"%20"`, which is not byte-identical. -/
theorem percent_roundtrip_counterexample :
    printableAsciiSpace ' ' = true ∧ loadEscapeRoundTrip [' '] ≠ [' '] := by
  decide

theorem pathUnescapeList_no_escape (s : List Char) (h : ∀ c ∈ s, shouldEscape c = false) :
    pathUnescapeList s = some s := by
  induction s with
  | nil => rfl
  | cons c rest ih =>
    have hc : ¬ c = '%' := by
      intro hcp
      have := h c (by simp)
      rw [hcp] at this
      exact absurd this (by decide)
    have hrest := ih (fun x hx => h x (by simp [hx]))
    simp [pathUnescapeList, hc, hrest]

theorem pathEscapeList_no_escape (s : List Char) (h : ∀ c ∈ s, shouldEscape c = false) :
    pathEscapeList s = s := by
  induction s with
  | nil => rfl
  | cons c rest ih =>
    have hc := h c (by simp)
    have hrest := ih (fun x hx => h x (by simp [hx]))
    simp [pathEscapeList, List.flatMap_cons, escapeChar, hc] at *
    simp [hrest]

/-- C4 amended: the load-then-serialize round trip is byte-identical
exactly on value strings whose characters `PathEscape` leaves
unescaped — ASCII letters, digits and `-._~$&+:=@`. Space (and `%`,
and the other escaped punctuation) breaks the round trip. -/
theorem percent_roundtrip_amended (s : List Char) (h : ∀ c ∈ s, shouldEscape c = false) :
    loadEscapeRoundTrip s = s := by
  unfold loadEscapeRoundTrip escapedValue loadValueUnescaped pathUnescapeLossy
  rw [pathUnescapeList_no_escape s h]
  exact pathEscapeList_no_escape s h

/-- Witness for C4's amended theorem at a concrete unescaped string. -/
theorem percent_roundtrip_amended_witness :
    (∀ c ∈ ['2', '0', '1', '8', '-', ':', 'a'], shouldEscape c = false)
    ∧ loadEscapeRoundTrip ['2', '0', '1', '8', '-', ':', 'a']
        = ['2', '0', '1', '8', '-', ':', 'a'] := by
  exact ⟨by decide, percent_roundtrip_amended _ (by decide)⟩

/-! ## Claim C2: the packet classifier -/

/-- Counterexample to C2 as stated: a packet whose `Content-Type` is
`auth/request` is cast to the raw passthrough, not to a distinguished
auth-request variant — the Go `switch` in `rawPacket.cast` has no
`ptAuthRequest` case. -/
theorem classifier_counterexample :
    ¬ (Packet.variant (RawPacket.cast ⟨[⟨"Content-Type", "auth/request"⟩], ""⟩)
        = specClassify (RawPacket.packetType ⟨[⟨"Content-Type", "auth/request"⟩], ""⟩)) := by
  decide

/-- C2 amended: the classifier is a pure function of the `Content-Type`
header mapping `command/reply` to Reply, `api/response` to Result,
`text/event-plain` to Event, `text/disconnect-notice` to Disconnect,
and any other or absent `Content-Type` — including `auth/request`,
which is recognised separately via the `packetType` accessor — to the
raw passthrough. -/
theorem classifier_amended (rp : RawPacket) :
    Packet.variant rp.cast = specClassifyAmended rp.packetType := by
  unfold RawPacket.cast specClassifyAmended
  simp only [ptCommandReply, ptEventPlain, ptResult, ptDisconnectNotice]
  split_ifs <;> simp_all [Packet.variant]

/-! ## Claim C5: Shutdown idempotence -/

theorem shutdown_not_running (s : SessionState) (h : s.running = false) :
    shutdown s = s := by
  simp [shutdown, closeErr, setRunning, h]

theorem shutdownN_not_running (n : Nat) (s : SessionState) (h : s.running = false) :
    shutdownN n s = s := by
  induction n generalizing s with
  | zero => rfl
  | succ k ih => simp [shutdownN, shutdown_not_running s h, ih s h]

theorem shutdown_running_false (s : SessionState) : (shutdown s).running = false := by
  unfold shutdown closeErr setRunning
  rcases hr : s.running <;> simp [hr]

/-- C5: `Shutdown` is a single compare-and-swap of the running flag from
true to false, pushing `EShutdown` onto the error channel only when
that call changed the flag; for every `N ≥ 1`, `N` calls have the
effect of one call, the flag ends false, and at most one `EShutdown`
is pushed (exactly one when the session was running, none when it was
not). -/
theorem shutdown_idempotent (s : SessionState) (n : Nat) (hn : 1 ≤ n) :
    shutdownN n s = shutdown s
    ∧ (shutdown s).running = false
    ∧ (shutdown s).errsPushed
        = s.errsPushed ++ (if s.running then [.eShutdown] else []) := by
  refine ⟨?_, shutdown_running_false s, ?_⟩
  · obtain ⟨k, rfl⟩ : ∃ k, n = k + 1 := ⟨n - 1, by omega⟩
    show shutdownN k (shutdown s) = shutdown s
    exact shutdownN_not_running k _ (shutdown_running_false s)
  · unfold shutdown closeErr setRunning
    rcases hr : s.running <;> simp [hr]

/-- Witness for C5: three Shutdown calls on a running session equal one
call and push a single `EShutdown`. -/
theorem shutdown_idempotent_witness :
    shutdownN 3 ⟨true, []⟩ = shutdown ⟨true, []⟩
    ∧ (shutdown (⟨true, []⟩ : SessionState)).errsPushed = [.eShutdown] := by
  have h := shutdown_idempotent ⟨true, []⟩ 3 (by decide)
  exact ⟨h.1, by simpa using h.2.2⟩

/-! ## Claim C3: Query's failure handling -/

/-- Counterexample to C3 as stated: a Query whose immediate reply is a
non-nil `command/reply` with `Reply-Text: -ERR no` (not OK, and with
no echoed Job-UUID) satisfies the claim's failure condition, yet the
job-table entry for the generated id is NOT removed — `Client.Query`
in `packets.go` only drops the registration when the response packet
is nil, and never closes the channel. -/
theorem query_failure_counterexample :
    replyIndicatesFailure
        (some (RawPacket.cast ⟨[⟨"Content-Type", "command/reply"⟩,
          ⟨"Reply-Text", "-ERR no"⟩], ""⟩)) = true
    ∧ (queryModel [] "j1" (.response (some (RawPacket.cast ⟨[⟨"Content-Type",
        "command/reply"⟩, ⟨"Reply-Text", "-ERR no"⟩], ""⟩)))).1.contains "j1" = true := by
  decide

/-- C3 amended: the Job Table entry is removed only when the immediate
response is null (`execute` produced no packet: timeout, nil outbox
channel, or nil cancellation); in that case Query returns a nil
channel together with `execute`'s non-nil error, and the result
channel is discarded rather than closed. A non-nil reply — even one
that is not OK or has no echoed Job-UUID — leaves the entry registered
and returns the channel with a nil error. -/
theorem query_removes_only_on_nil (jobs : List String) (jobID : String) (o : ExecOutcome)
    (hfresh : jobs.contains jobID = false) :
    ((executeFS o).1 = none →
      queryModel jobs jobID o = (jobs, none, (executeFS o).2) ∧ (executeFS o).2 ≠ none)
    ∧ (∀ p, (executeFS o).1 = some p →
      queryModel jobs jobID o = (jobs ++ [jobID], some jobID, none)) := by
  have hnm : jobID ∉ jobs := by simpa using hfresh
  have hnotmem : ∀ j ∈ jobs, ¬ j = jobID := fun j hj heq => hnm (heq ▸ hj)
  have hins : mapInsert jobs jobID = jobs ++ [jobID] := by
    unfold mapInsert
    simp only [hfresh]
    simp
  have hdel : mapDelete (jobs ++ [jobID]) jobID = jobs := by
    unfold mapDelete
    rw [List.filter_append]
    simp
    intro a ha
    exact hnotmem a ha
  constructor
  · intro hp
    rcases o with _ | _ | p0
    · exact ⟨by simp [queryModel, executeFS, hins, hdel], by simp [executeFS]⟩
    · exact ⟨by simp [queryModel, executeFS, hins, hdel], by simp [executeFS]⟩
    · rcases p0 with _ | p1
      · exact ⟨by simp [queryModel, executeFS, hins, hdel], by simp [executeFS]⟩
      · simp [executeFS] at hp
  · intro p hp
    rcases o with _ | _ | p0
    · simp [executeFS] at hp
    · simp [executeFS] at hp
    · rcases p0 with _ | p1
      · simp [executeFS] at hp
      · simp [queryModel, executeFS, hins]

/-- Witness for C3's amended theorem: a timed-out Query on a fresh job id
drops the registration and returns a nil channel with `ETimeout`. -/
theorem query_removes_only_on_nil_witness :
    ([] : List String).contains "j" = false
    ∧ queryModel [] "j" .timeout = ([], none, some .eTimeout) := by
  have h := query_removes_only_on_nil [] "j" .timeout (by decide)
  exact ⟨by decide, ((h.1 (by decide)).1.trans (by decide))⟩

/-! ## Claim C9: PreventSocketBlocking swallows errors -/

/-- C9: with `PreventSocketBlocking` set, `Execute` always returns a nil
error — the `ch, err := c.Query(...)` statement shadows the named
return value — so a failing Query is observable only as an
empty-string result. -/
theorem executePSB_swallows_error (jobs : List String) (jobID : String)
    (o : ExecOutcome) (recv : String) :
    (executeClientPSB jobs jobID o recv).2 = none
    ∧ ((queryModel jobs jobID o).2.2 ≠ none →
        (executeClientPSB jobs jobID o recv).1 = "") := by
  refine ⟨rfl, fun h => ?_⟩
  unfold executeClientPSB
  simp [h]

/-- Witness for C9: a timed-out Query under PreventSocketBlocking yields
result `""` and error nil. -/
theorem executePSB_swallows_error_witness :
    (queryModel [] "j" .timeout).2.2 ≠ none
    ∧ (executeClientPSB [] "j" .timeout "ignored").1 = ""
    ∧ (executeClientPSB [] "j" .timeout "ignored").2 = none := by
  have h := executePSB_swallows_error [] "j" .timeout "ignored"
  exact ⟨by decide, h.2 (by decide), h.1⟩

/-! ## Claim C1: command pipeline FIFO matching -/

theorem loopRun_deliveries (is : List LoopInput) :
    ∀ (q : List Nat) (ds : List (Nat × RawPacket)),
    noStop is = true → balanced q.length is = true →
    (loopRun ⟨q, ds, false⟩ is).deliveries
      = ds ++ (q ++ acceptedIds is).zip (matchablePackets is) := by
  induction is with
  | nil =>
    intro q ds _ _
    simp [loopRun, acceptedIds, matchablePackets]
  | cons i rest ih =>
    intro q ds hns hb
    rw [show noStop (i :: rest) = ((fun x =>
      match x with
      | LoopInput.errSignal => false
      | LoopInput.packet rp =>
        match rp.cast with
        | Packet.disconnectNotice _ => false
        | _ => true
      | LoopInput.accept _ => true) i && noStop rest) from by
        simp [noStop, List.all_cons]] at hns
    simp only [Bool.and_eq_true] at hns
    have hns' : noStop rest = true := hns.2
    have hnsh := hns.1
    rcases i with id | rp | _
    · have hb' : balanced (q ++ [id]).length rest = true := by
        simpa [balanced, List.length_append] using hb
      have step : loopRun ⟨q, ds, false⟩ (.accept id :: rest)
          = loopRun ⟨q ++ [id], ds, false⟩ rest := rfl
      rw [step, ih _ _ hns' hb']
      simp [acceptedIds, matchablePackets, List.filterMap_cons, List.append_assoc]
    · rcases hc : rp.cast with rp' | rp' | rp' | rp' | rp'
      -- reply: matchable
      · have hmt : isMatchable rp = true := by simp [isMatchable, hc]
        rw [show balanced q.length (LoopInput.packet rp :: rest)
            = (decide (0 < q.length) && balanced (q.length - 1) rest) from by
          simp [balanced, hmt]] at hb
        simp only [Bool.and_eq_true, decide_eq_true_eq] at hb
        rcases q with _ | ⟨qh, qt⟩
        · simp at hb
        · have step : loopRun ⟨qh :: qt, ds, false⟩ (.packet rp :: rest)
              = loopRun ⟨qt, ds ++ [(qh, rp)], false⟩ rest := by
            simp [loopRun, List.foldl_cons, loopStep, hc]
          rw [step, ih _ _ hns' (by simpa using hb.2)]
          simp [acceptedIds, matchablePackets, List.filterMap_cons, hmt, List.append_assoc]
      -- event: not matchable, no pipeline effect
      · have hmf : isMatchable rp = false := by simp [isMatchable, hc]
        have hb' : balanced q.length rest = true := by
          simpa [balanced, hmf] using hb
        have step : loopRun ⟨q, ds, false⟩ (.packet rp :: rest)
            = loopRun ⟨q, ds, false⟩ rest := by
          simp [loopRun, List.foldl_cons, loopStep, hc]
        rw [step, ih _ _ hns' hb']
        simp [acceptedIds, matchablePackets, List.filterMap_cons, hmf]
      -- result: matchable
      · have hmt : isMatchable rp = true := by simp [isMatchable, hc]
        rw [show balanced q.length (LoopInput.packet rp :: rest)
            = (decide (0 < q.length) && balanced (q.length - 1) rest) from by
          simp [balanced, hmt]] at hb
        simp only [Bool.and_eq_true, decide_eq_true_eq] at hb
        rcases q with _ | ⟨qh, qt⟩
        · simp at hb
        · have step : loopRun ⟨qh :: qt, ds, false⟩ (.packet rp :: rest)
              = loopRun ⟨qt, ds ++ [(qh, rp)], false⟩ rest := by
            simp [loopRun, List.foldl_cons, loopStep, hc]
          rw [step, ih _ _ hns' (by simpa using hb.2)]
          simp [acceptedIds, matchablePackets, List.filterMap_cons, hmt, List.append_assoc]
      -- disconnect: excluded by noStop
      · simp [hc] at hnsh
      -- raw: matchable
      · have hmt : isMatchable rp = true := by simp [isMatchable, hc]
        rw [show balanced q.length (LoopInput.packet rp :: rest)
            = (decide (0 < q.length) && balanced (q.length - 1) rest) from by
          simp [balanced, hmt]] at hb
        simp only [Bool.and_eq_true, decide_eq_true_eq] at hb
        rcases q with _ | ⟨qh, qt⟩
        · simp at hb
        · have step : loopRun ⟨qh :: qt, ds, false⟩ (.packet rp :: rest)
              = loopRun ⟨qt, ds ++ [(qh, rp)], false⟩ rest := by
            simp [loopRun, List.foldl_cons, loopStep, hc]
          rw [step, ih _ _ hns' (by simpa using hb.2)]
          simp [acceptedIds, matchablePackets, List.filterMap_cons, hmt, List.append_assoc]
    · simp at hnsh

/-- C1: over every normal-operation trace (no error signal, no
disconnect notice) in which each response-eligible packet arrives
while a written command is still awaiting its response, the loop
delivers to the response channels exactly the position-wise pairing of
the accepted commands (in acceptance/write order) with the non-event,
non-disconnect packets (in arrival order): each command gets exactly
one response — the next eligible inbound packet — and responses reach
their respective callers in acceptance FIFO order. -/
theorem pipeline_fifo_order (is : List LoopInput)
    (hns : noStop is = true) (hb : balanced 0 is = true) :
    (loopRun ⟨[], [], false⟩ is).deliveries
      = (acceptedIds is).zip (matchablePackets is) := by
  have h := loopRun_deliveries is [] [] hns (by simpa using hb)
  simpa using h

/-- Witness for C1 at a concrete trace: two commands, an interleaved
event, then two responses; deliveries pair command 1 with the first
response and command 2 with the second. -/
theorem pipeline_fifo_order_witness :
    noStop [.accept 1, .packet ⟨[⟨"Content-Type", "text/event-plain"⟩], "e"⟩,
        .accept 2, .packet ⟨[⟨"Content-Type", "api/response"⟩], "r1"⟩,
        .packet ⟨[⟨"Content-Type", "command/reply"⟩], "r2"⟩] = true
    ∧ (loopRun ⟨[], [], false⟩ [.accept 1,
        .packet ⟨[⟨"Content-Type", "text/event-plain"⟩], "e"⟩,
        .accept 2, .packet ⟨[⟨"Content-Type", "api/response"⟩], "r1"⟩,
        .packet ⟨[⟨"Content-Type", "command/reply"⟩], "r2"⟩]).deliveries
      = [(1, ⟨[⟨"Content-Type", "api/response"⟩], "r1"⟩),
         (2, ⟨[⟨"Content-Type", "command/reply"⟩], "r2"⟩)] := by
  refine ⟨by decide, ?_⟩
  have h := pipeline_fifo_order [.accept 1,
    .packet ⟨[⟨"Content-Type", "text/event-plain"⟩], "e"⟩,
    .accept 2, .packet ⟨[⟨"Content-Type", "api/response"⟩], "r1"⟩,
    .packet ⟨[⟨"Content-Type", "command/reply"⟩], "r2"⟩] (by decide) (by decide)
  exact h.trans (by decide)

/-! ## Claim C6: lazy event parse -/

theorem event_read_headers_isSome (e : Event) : (Event.read e).headers.isSome = true := by
  unfold Event.read
  rcases hh : e.headers with _ | hs
  · simp only
    split
    · split
      · split <;> rfl
      · rfl
    · rfl
  · simp [hh]

theorem event_read_of_some (e : Event) (h : e.headers.isSome = true) : e.read = e := by
  unfold Event.read
  rcases hh : e.headers with _ | hs
  · rw [hh] at h
    simp at h
  · simp

theorem matchName_refl (n : String) : matchName n n = true := by
  simp [matchName]

/-- C6: the lazy parse runs at most once (`read` is idempotent, so
repeated `Get`/`Body` calls return identical results without
reparsing); after `read` the header container is always non-nil, so
every `Get` returns; and when the MIME parse of the raw body fails,
the event carries the single synthetic `Event-Name` header holding the
parse error text, which `Get "Event-Name"` returns. -/
theorem event_lazy_parse_once (e : Event) (msg : String) :
    e.read.read = e.read
    ∧ (Event.read e).headers.isSome = true
    ∧ (∀ name, e.read.Get name = e.Get name)
    ∧ e.read.Body = e.Body
    ∧ (e.headers = none →
        parseLines (readHeaderLines e.rawBody).1 = .error msg →
        (Event.read e).headers = some [⟨"Event-Name", msg⟩]
        ∧ e.Get "Event-Name" = msg) := by
  have hidem : e.read.read = e.read := event_read_of_some _ (event_read_headers_isSome e)
  refine ⟨hidem, event_read_headers_isSome e, ?_, ?_, ?_⟩
  · intro name
    unfold Event.Get
    rw [hidem]
  · unfold Event.Body
    rw [hidem]
  · intro hh herr
    have hread : (Event.read e).headers = some [⟨"Event-Name", msg⟩] := by
      unfold Event.read
      simp only [hh, herr]
    refine ⟨hread, ?_⟩
    unfold Event.Get
    rw [hread]
    simp [Headers.get, matchName_refl]

/-- Witness for C6 at a concrete event whose body has no colon: the
parse fails once, installs the synthetic header, and `Get` returns the
error text. -/
theorem event_lazy_parse_once_witness :
    (Event.read ⟨("badline\n").data, none, []⟩).headers
        = some [⟨"Event-Name", "malformed MIME header line: badline"⟩]
    ∧ Event.Get ⟨("badline\n").data, none, []⟩ "Event-Name"
        = "malformed MIME header line: badline"
    ∧ (Event.read ⟨("badline\n").data, none, []⟩).read
        = Event.read ⟨("badline\n").data, none, []⟩ := by
  have h := event_lazy_parse_once ⟨("badline\n").data, none, []⟩
    "malformed MIME header line: badline"
  have hf := h.2.2.2.2 rfl (by rfl)
  exact ⟨hf.1, hf.2, h.1⟩

/-! ## Claim C8: Timestamp -/

theorem get_of_getAll_nil (h : Headers) (n : String) (hnil : h.getAll n = []) :
    h.get n = "" := by
  induction h with
  | nil => rfl
  | cons e rest ih =>
    by_cases hm : matchName n e.name
    · simp [Headers.getAll, hm] at hnil
    · simp [Headers.getAll, hm] at hnil
      simp [Headers.get, hm]
      exact ih hnil

/-- C8: `Timestamp()` parses `Event-Date-Timestamp` with `strconv.Atoi`;
on success it returns the moment `time.Unix(t / 1_000_000,
(t mod 1_000_000) * 1_000)` (Go's truncated division and remainder),
and when the header is missing (no matching entry in the parsed
container) or malformed (`Atoi` fails) it returns the absent `nil`
value, which is distinct from every proper moment including the
epoch. -/
theorem timestamp_parses_microseconds (e : Event) (hs : Headers) (t : Int) :
    (atoi (e.Get "Event-Date-Timestamp") = some t →
        e.Timestamp = some (timeUnix (t.tdiv 1000000) ((t.tmod 1000000) * 1000)))
    ∧ (atoi (e.Get "Event-Date-Timestamp") = none → e.Timestamp = none)
    ∧ ((Event.read e).headers = some hs → hs.getAll "Event-Date-Timestamp" = [] →
        e.Timestamp = none)
    ∧ (none : Option Int) ≠ some (timeUnix 0 0) := by
  refine ⟨?_, ?_, ?_, by simp⟩
  · intro ht
    unfold Event.Timestamp
    rw [ht]
  · intro ht
    unfold Event.Timestamp
    rw [ht]
  · intro hread hnil
    have hget : e.Get "Event-Date-Timestamp" = "" := by
      unfold Event.Get
      rw [hread]
      exact get_of_getAll_nil hs _ hnil
    unfold Event.Timestamp
    rw [hget]
    rfl

/-- Witness for C8 at a concrete event carrying
`Event-Date-Timestamp: 1700000000000000`: the timestamp is the moment
1 700 000 000 seconds after the epoch. -/
theorem timestamp_parses_microseconds_witness :
    atoi (Event.Get ⟨("Event-Date-Timestamp: 1700000000000000\n").data, none, []⟩
        "Event-Date-Timestamp") = some 1700000000000000
    ∧ Event.Timestamp ⟨("Event-Date-Timestamp: 1700000000000000\n").data, none, []⟩
        = some 1700000000000000000 := by
  have h := timestamp_parses_microseconds
    ⟨("Event-Date-Timestamp: 1700000000000000\n").data, none, []⟩ [] 1700000000000000
  exact ⟨by decide, (h.1 (by decide)).trans (by decide)⟩

/-! ## Claim C10: short event sub-body is NUL-padded -/

/-- C10: when an event body declares a `Content-Length` larger than the
bytes remaining after its header block, the lazy parse still succeeds
(the short-read error of `io.ReadFull` is discarded): the parsed
headers are installed and `Body()` is exactly `Content-Length` bytes —
the available bytes followed by zero (NUL) bytes. -/
theorem short_body_nul_padded (e : Event) (pairs : List (String × String)) (n : Int)
    (hh : e.headers = none)
    (hp : parseLines (readHeaderLines e.rawBody).1 = .ok pairs)
    (hcl : atoi ((loadParsedHeaders pairs).get "Content-Length") = some n)
    (hshort : ((readHeaderLines e.rawBody).2).length < n.toNat) :
    (Event.read e).headers = some (loadParsedHeaders pairs)
    ∧ e.Body = (readHeaderLines e.rawBody).2
        ++ List.replicate (n.toNat - ((readHeaderLines e.rawBody).2).length) (Char.ofNat 0)
    ∧ (e.Body).length = n.toNat := by
  have hn : 0 < n := by omega
  have hread : Event.read e
      = ⟨e.rawBody, some (loadParsedHeaders pairs),
         readFullZero (readHeaderLines e.rawBody).2 n.toNat⟩ := by
    unfold Event.read
    simp only [hh, hp, hcl, if_pos hn]
  have htake : ((readHeaderLines e.rawBody).2).take n.toNat = (readHeaderLines e.rawBody).2 :=
    List.take_of_length_le (le_of_lt hshort)
  have hbody : e.Body = readFullZero (readHeaderLines e.rawBody).2 n.toNat := by
    unfold Event.Body
    rw [hread]
  refine ⟨by rw [hread], ?_, ?_⟩
  · rw [hbody]
    unfold readFullZero
    rw [htake]
  · rw [hbody]
    unfold readFullZero
    rw [htake]
    simp [List.length_append, List.length_replicate]
    omega

/-- Witness for C10: `Content-Length: 10` with only three residual bytes
yields a 10-byte body `abc` plus seven NULs. -/
theorem short_body_nul_padded_witness :
    Event.Body ⟨("Content-Length: 10\n\nabc").data, none, []⟩
      = ("abc").data ++ List.replicate 7 (Char.ofNat 0)
    ∧ (Event.Body ⟨("Content-Length: 10\n\nabc").data, none, []⟩).length = 10 := by
  have h := short_body_nul_padded ⟨("Content-Length: 10\n\nabc").data, none, []⟩
    [("Content-Length", "10")] 10 rfl (by rfl) (by decide) (by decide)
  exact ⟨h.2.1.trans (by decide), h.2.2⟩

end Freeswitch
